import Mathlib

/-!
Verification of the amortization engine `calculate_home_loan` from
`src/home_loan_calc.py`, shallowly embedded over `ℚ`.

The Python engine works on IEEE floats; we model its arithmetic with exact
rationals, `round` with Python 3 semantics (half to even, `pyround`), and
`int(·)` with truncation toward zero (`pytrunc`).  Division on `ℚ` is total
with `q / 0 = 0`; the nonvanishing of the one divisor the engine uses is
itself one of the verified properties (`emiDivisor`).
-/

/-- Python 3 `round` on a rational: round half to even, returning an integer. -/
def pyround (q : ℚ) : ℤ :=
  if q - ⌊q⌋ < 1/2 then ⌊q⌋
  else if 1/2 < q - ⌊q⌋ then ⌊q⌋ + 1
  else if ⌊q⌋ % 2 = 0 then ⌊q⌋ else ⌊q⌋ + 1

/-- Python `int()` on a rational: truncation toward zero. -/
def pytrunc (q : ℚ) : ℤ := if 0 ≤ q then ⌊q⌋ else ⌈q⌉

/-- One row of the yearly amortization schedule, as appended by the Python
loop body (fields `Year`, `Opening Balance`, `EMI*12`, `Interest paid yearly`,
`Principal paid yearly`, `Closing Balance`). -/
structure ScheduleRow where
  year : ℕ
  openingBalance : ℤ
  emi12 : ℤ
  interestPaidYearly : ℤ
  principalPaidYearly : ℤ
  closingBalance : ℤ
  deriving Repr, DecidableEq

/-- The dictionary returned by `calculate_home_loan` on valid input. -/
structure LoanResult where
  monthly_emi : ℤ
  total_interest : ℤ
  total_payment : ℤ
  schedule : List ScheduleRow
  deriving Repr, DecidableEq

/-- `monthly_rate = (rate_pa / 100) / 12` (line 12 of the source). -/
def monthly_rate (rate_pa : ℚ) : ℚ := rate_pa / 100 / 12

/-- `tenure_months = int(years * 12)` (line 14 of the source). -/
def tenure_months (years : ℚ) : ℤ := pytrunc (years * 12)

/-- The divisor `(1 + monthly_rate)**tenure_months - 1` of the EMI formula
(line 17 of the source). -/
def emiDivisor (years rate_pa : ℚ) : ℚ :=
  (1 + monthly_rate rate_pa) ^ (tenure_months years).toNat - 1

/-- `emi = (principal * monthly_rate * (1+monthly_rate)**tenure_months) /
((1+monthly_rate)**tenure_months - 1)` (line 17 of the source). -/
def emi (principal years rate_pa : ℚ) : ℚ :=
  principal * monthly_rate rate_pa
      * (1 + monthly_rate rate_pa) ^ (tenure_months years).toNat
    / emiDivisor years rate_pa

/-- State of the inner month loop: running balance and the year's interest
and principal accumulators. -/
structure YearState where
  bal : ℚ
  yi : ℚ
  yp : ℚ
  deriving Repr, DecidableEq

/-- Body of the inner month loop (lines 31-37 of the source):
`interest_m = remaining_balance * monthly_rate`, `principal_m = emi - interest_m`,
`remaining_balance -= principal_m`, and the two accumulators grow. -/
def monthUpdate (mr e : ℚ) (s : YearState) : YearState :=
  let interest_m := s.bal * mr
  let principal_m := e - interest_m
  { bal := s.bal - principal_m
  , yi := s.yi + interest_m
  , yp := s.yp + principal_m }

/-- The twelve iterations of the month loop for one year, starting from
balance `bal` with fresh zero accumulators (lines 28-37 of the source). -/
def runYear (mr e : ℚ) (bal : ℚ) : YearState :=
  (monthUpdate mr e)^[12] { bal := bal, yi := 0, yp := 0 }

/-- The year loop (lines 26-46 of the source): `n` remaining iterations,
current `Year` value `year`, current `remaining_balance` `bal`.  Each
iteration records one `ScheduleRow` exactly as the Python `schedule.append`. -/
def buildSchedule (mr e : ℚ) : ℕ → ℕ → ℚ → List ScheduleRow
  | 0, _, _ => []
  | n + 1, year, bal =>
    let s := runYear mr e bal
    { year := year
    , openingBalance := pyround bal
    , emi12 := pyround (e * 12)
    , interestPaidYearly := pyround s.yi
    , principalPaidYearly := pyround s.yp
    , closingBalance := pyround (max 0 s.bal) } :: buildSchedule mr e n (year + 1) s.bal

/-- The result dictionary built at lines 48-53 of the source, for inputs that
passed validation.  `total_payment = emi * tenure_months`,
`total_interest = total_payment - principal`; the year loop runs
`range(1, int(years) + 1)`, i.e. `int(years)` times starting at year 1. -/
def mkResult (principal years rate_pa : ℚ) : LoanResult :=
  { monthly_emi := pyround (emi principal years rate_pa)
  , total_interest :=
      pyround (emi principal years rate_pa * (tenure_months years : ℚ) - principal)
  , total_payment := pyround (emi principal years rate_pa * (tenure_months years : ℚ))
  , schedule := buildSchedule (monthly_rate rate_pa) (emi principal years rate_pa)
      (pytrunc years).toNat 1 principal }

/-- `calculate_home_loan(principal, years, rate_pa)` (lines 7-53 of the
source): `None` when any input is nonpositive, otherwise the result
dictionary. -/
def calculate_home_loan (principal years rate_pa : ℚ) : Option LoanResult :=
  if principal ≤ 0 ∨ years ≤ 0 ∨ rate_pa ≤ 0 then none
  else some (mkResult principal years rate_pa)

/-- The `monthly_emi` field of the result, `0` when the call returned `None`. -/
def emiOf (principal years rate_pa : ℚ) : ℤ :=
  ((calculate_home_loan principal years rate_pa).map LoanResult.monthly_emi).getD 0

/-- The schedule of the result, `[]` when the call returned `None`. -/
def scheduleOf (principal years rate_pa : ℚ) : List ScheduleRow :=
  ((calculate_home_loan principal years rate_pa).map LoanResult.schedule).getD []

/-- Modelled from the spec: `monthlyRate = (annualRatePercent / 100) / 12`. -/
def spec_monthlyRate (rate : ℚ) : ℚ := rate / 100 / 12

/-- Modelled from the spec: `months = floor(tenureYears * 12)`. -/
def spec_months (years : ℚ) : ℤ := ⌊years * 12⌋

/-- Modelled from the spec: the standard amortization formula
`payment = principal * monthlyRate * (1+monthlyRate)^months /
((1+monthlyRate)^months - 1)`. -/
def spec_payment (principal years rate : ℚ) : ℚ :=
  principal * spec_monthlyRate rate
      * (1 + spec_monthlyRate rate) ^ (spec_months years).toNat
    / ((1 + spec_monthlyRate rate) ^ (spec_months years).toNat - 1)

/-- The `total_interest` field of the result, `0` when the call returned `None`. -/
def totalInterestOf (principal years rate_pa : ℚ) : ℤ :=
  ((calculate_home_loan principal years rate_pa).map LoanResult.total_interest).getD 0

/-- The `total_payment` field of the result, `0` when the call returned `None`. -/
def totalPaymentOf (principal years rate_pa : ℚ) : ℤ :=
  ((calculate_home_loan principal years rate_pa).map LoanResult.total_payment).getD 0

/-- Balance-only view of one month of the loop: the balance is multiplied by
`1 + monthly_rate` and decreased by the EMI. -/
def balStep (mr e : ℚ) (b : ℚ) : ℚ := b - (e - b * mr)

/-- Balance after `m` simulated months starting from `P`. -/
def balAt (mr e P : ℚ) (m : ℕ) : ℚ := (balStep mr e)^[m] P

/-- The row that the year loop records in its `i`-th iteration (0-based) when
it starts from balance `P` and `Year` value `year0`. -/
def rowOf (mr e P : ℚ) (year0 i : ℕ) : ScheduleRow :=
  { year := year0 + i
  , openingBalance := pyround (balAt mr e P (12 * i))
  , emi12 := pyround (e * 12)
  , interestPaidYearly := pyround (e * 12 - (balAt mr e P (12 * i) - balAt mr e P (12 * i + 12)))
  , principalPaidYearly := pyround (balAt mr e P (12 * i) - balAt mr e P (12 * i + 12))
  , closingBalance := pyround (max 0 (balAt mr e P (12 * i + 12))) }

/-- Consecutive schedule rows agree: each closing balance equals the next
row's opening balance. -/
def chainClosingOpening (l : List ScheduleRow) : Prop :=
  l.Chain' (fun a b => a.closingBalance = b.openingBalance)

/-- The recorded yearly principal is non-decreasing along the schedule. -/
def principalNondecreasing (l : List ScheduleRow) : Prop :=
  l.Chain' (fun a b => a.principalPaidYearly ≤ b.principalPaidYearly)

/-- The recorded yearly interest is non-increasing along the schedule. -/
def interestNonincreasing (l : List ScheduleRow) : Prop :=
  l.Chain' (fun a b => b.interestPaidYearly ≤ a.interestPaidYearly)

/-- Every recorded closing balance is nonnegative. -/
def allClosingNonneg (l : List ScheduleRow) : Prop := ∀ row ∈ l, 0 ≤ row.closingBalance

/-- The `Year` column is `1, 2, ...` in chronological order. -/
def yearsIndexed (l : List ScheduleRow) : Prop :=
  l.map ScheduleRow.year = List.range' 1 l.length

/-- Sum of the `Principal paid yearly` column. -/
def sumPrincipal (l : List ScheduleRow) : ℤ := (l.map ScheduleRow.principalPaidYearly).sum

/-- Closing balance of the `i`-th row (0-based), `0` when out of range. -/
def closingAt (l : List ScheduleRow) (i : ℕ) : ℤ :=
  (l[i]?.map ScheduleRow.closingBalance).getD 0

/-- The tenure is a whole positive number of years. -/
def IntegerTenure (y : ℚ) : Prop := ∃ n : ℕ, 1 ≤ n ∧ y = (n : ℚ)

/-- For a whole tenure of `n` years, the last schedule row closes at zero. -/
def finalClosingZero (P y r : ℚ) : Prop :=
  ∀ n : ℕ, 1 ≤ n → y = (n : ℚ) → closingAt (mkResult P y r).schedule (n - 1) = 0

/-- One simulated year accumulates interest plus principal equal to twelve
monthly payments, whatever the starting balance. -/
def yearConservation (mr e : ℚ) : Prop :=
  ∀ b : ℚ, (runYear mr e b).yi + (runYear mr e b).yp = 12 * e

/-- Every row records the same `EMI*12` constant `c`. -/
def emi12Fields (l : List ScheduleRow) (c : ℤ) : Prop := ∀ row ∈ l, row.emi12 = c

/-- Each row's interest plus principal matches its `EMI*12` field to within
one currency unit. -/
def rowSumsMatchEmi12 (l : List ScheduleRow) : Prop :=
  ∀ row ∈ l, |row.interestPaidYearly + row.principalPaidYearly - row.emi12| ≤ 1

theorem balStep_eq (mr e b : ℚ) : balStep mr e b = b * (1 + mr) - e := by
  unfold balStep; ring

theorem floor_le_pyround (q : ℚ) : ⌊q⌋ ≤ pyround q := by
  unfold pyround; split_ifs <;> omega

theorem pyround_le_floor_add_one (q : ℚ) : pyround q ≤ ⌊q⌋ + 1 := by
  unfold pyround; split_ifs <;> omega

theorem abs_pyround_sub (q : ℚ) : |(pyround q : ℚ) - q| ≤ 1/2 := by
  have h0 : (⌊q⌋ : ℚ) ≤ q := Int.floor_le q
  have h1 : q < ⌊q⌋ + 1 := Int.lt_floor_add_one q
  unfold pyround
  split_ifs with hA hB hC <;> rw [abs_le] <;> push_cast <;> constructor <;> linarith

theorem pyround_nonneg {q : ℚ} (h : 0 ≤ q) : 0 ≤ pyround q := by
  have h0 : 0 ≤ ⌊q⌋ := Int.floor_nonneg.mpr h
  unfold pyround; split_ifs <;> omega

theorem pyround_zero : pyround 0 = 0 := by
  norm_num [pyround]

theorem pyround_mono {p q : ℚ} (h : p ≤ q) : pyround p ≤ pyround q := by
  rcases eq_or_lt_of_le (Int.floor_le_floor h) with heq | hlt
  · have hc : ((⌊p⌋ : ℤ) : ℚ) = ((⌊q⌋ : ℤ) : ℚ) := by rw [heq]
    unfold pyround
    rw [← heq]
    split_ifs <;> first | omega | linarith
  · calc pyround p ≤ ⌊p⌋ + 1 := pyround_le_floor_add_one p
      _ ≤ ⌊q⌋ := by omega
      _ ≤ pyround q := floor_le_pyround q

theorem pyround_eq_of_lt_half (q : ℚ) (f : ℤ) (h1 : (f : ℚ) ≤ q) (h2 : q < (f : ℚ) + 1/2) :
    pyround q = f := by
  have hf : ⌊q⌋ = f := Int.floor_eq_iff.mpr ⟨h1, by linarith⟩
  unfold pyround
  rw [hf, if_pos (by push_cast [← hf] at h2 ⊢; linarith [Int.floor_le q])]

theorem pyround_eq_of_gt_half (q : ℚ) (f : ℤ) (h1 : (f : ℚ) + 1/2 < q) (h2 : q < (f : ℚ) + 1) :
    pyround q = f + 1 := by
  have hf : ⌊q⌋ = f := Int.floor_eq_iff.mpr ⟨by linarith, h2⟩
  unfold pyround
  rw [hf, if_neg (by linarith), if_pos (by linarith)]

theorem pytrunc_of_nonneg {q : ℚ} (h : 0 ≤ q) : pytrunc q = ⌊q⌋ := if_pos h

theorem tenure_months_eq_floor {y : ℚ} (hy : 0 < y) : tenure_months y = ⌊y * 12⌋ :=
  pytrunc_of_nonneg (by positivity)

theorem monthUpdate_iterate (mr e : ℚ) (n : ℕ) (s : YearState) :
    (monthUpdate mr e)^[n] s =
      { bal := (balStep mr e)^[n] s.bal
      , yi := s.yi + (e * n - (s.bal - (balStep mr e)^[n] s.bal))
      , yp := s.yp + (s.bal - (balStep mr e)^[n] s.bal) } := by
  induction n with
  | zero => simp
  | succ n ih =>
    rw [Function.iterate_succ_apply', Function.iterate_succ_apply', ih]
    simp only [monthUpdate, balStep, YearState.mk.injEq]
    push_cast
    refine ⟨by ring_nf, by ring_nf, by ring_nf⟩

theorem runYear_eq (mr e b : ℚ) :
    runYear mr e b =
      { bal := (balStep mr e)^[12] b
      , yi := e * 12 - (b - (balStep mr e)^[12] b)
      , yp := b - (balStep mr e)^[12] b } := by
  rw [runYear, monthUpdate_iterate]
  norm_num

theorem balStep_iterate (mr e : ℚ) (hmr : mr ≠ 0) (b : ℚ) (m : ℕ) :
    (balStep mr e)^[m] b = (1 + mr) ^ m * b - e * (((1 + mr) ^ m - 1) / mr) := by
  induction m with
  | zero => simp
  | succ m ih =>
    rw [Function.iterate_succ_apply', ih, balStep_eq]
    field_simp
    ring

theorem balAt_emi_closed (mr P : ℚ) (M : ℕ) (hmr : 0 < mr) (hM : M ≠ 0) (m : ℕ) :
    balAt mr (P * mr * (1 + mr) ^ M / ((1 + mr) ^ M - 1)) P m
      = P * ((1 + mr) ^ M - (1 + mr) ^ m) / ((1 + mr) ^ M - 1) := by
  have ha : (1 : ℚ) < 1 + mr := by linarith
  have hq : (1 : ℚ) < (1 + mr) ^ M := one_lt_pow₀ ha hM
  have hq0 : (1 + mr) ^ M - 1 ≠ 0 := ne_of_gt (by linarith)
  rw [balAt, balStep_iterate mr _ (ne_of_gt hmr)]
  field_simp
  ring

theorem rowOf_succ (mr e P : ℚ) (year0 i : ℕ) :
    rowOf mr e P year0 (i + 1) = rowOf mr e (balAt mr e P 12) (year0 + 1) i := by
  have hb : ∀ k : ℕ, balAt mr e P (k + 12) = balAt mr e (balAt mr e P 12) k := fun k =>
    Function.iterate_add_apply (balStep mr e) k 12 P
  unfold rowOf
  rw [show 12 * (i + 1) = 12 * i + 12 from by omega, show year0 + (i + 1) = year0 + 1 + i from by
    omega, show 12 * i + 12 + 12 = (12 * i + 12) + 12 from rfl, hb (12 * i), hb (12 * i + 12)]

theorem buildSchedule_eq_map (mr e : ℚ) :
    ∀ (n : ℕ) (year0 : ℕ) (P : ℚ),
      buildSchedule mr e n year0 P = (List.range n).map (rowOf mr e P year0)
  | 0, _, _ => by simp [buildSchedule]
  | n + 1, year0, P => by
    rw [buildSchedule, List.range_succ_eq_map, List.map_cons, List.map_map,
      buildSchedule_eq_map mr e n (year0 + 1) ((runYear mr e P).bal)]
    congr 1
    · rw [runYear_eq]
      unfold rowOf
      rw [show (12 : ℕ) * 0 = 0 from rfl, show (12 : ℕ) * 0 + 12 = 12 from rfl]
      simp [balAt]
    · rw [runYear_eq]
      congr 1
      funext i
      rw [Function.comp_apply, Nat.succ_eq_add_one, rowOf_succ]
      rfl

theorem buildSchedule_length (mr e : ℚ) (n year0 : ℕ) (P : ℚ) :
    (buildSchedule mr e n year0 P).length = n := by
  rw [buildSchedule_eq_map, List.length_map, List.length_range]

theorem monthly_rate_pos {r : ℚ} (hr : 0 < r) : 0 < monthly_rate r := by
  unfold monthly_rate; positivity

theorem twelve_mul_le_months {y : ℚ} (hy : 0 < y) :
    12 * (pytrunc y).toNat ≤ (tenure_months y).toNat := by
  have h1 : pytrunc y = ⌊y⌋ := pytrunc_of_nonneg hy.le
  have h2 : tenure_months y = ⌊y * 12⌋ := tenure_months_eq_floor hy
  have h3 : (12 : ℤ) * ⌊y⌋ ≤ ⌊y * 12⌋ := by
    refine Int.le_floor.mpr ?_
    push_cast
    nlinarith [Int.floor_le y]
  have h0 : (0 : ℤ) ≤ ⌊y⌋ := Int.floor_nonneg.mpr hy.le
  rw [h1, h2]
  omega

theorem months_of_one_le {y : ℚ} (hy : 1 ≤ y) : 12 ≤ tenure_months y := by
  rw [tenure_months_eq_floor (by linarith)]
  exact Int.le_floor.mpr (by push_cast; linarith)

theorem calc_pos_eq {P y r : ℚ} (hP : 0 < P) (hy : 0 < y) (hr : 0 < r) :
    calculate_home_loan P y r = some (mkResult P y r) := by
  rw [calculate_home_loan, if_neg]
  push_neg
  exact ⟨hP, hy, hr⟩

theorem schedule_eq (P y r : ℚ) :
    (mkResult P y r).schedule =
      (List.range (pytrunc y).toNat).map (rowOf (monthly_rate r) (emi P y r) P 1) :=
  buildSchedule_eq_map _ _ _ _ _

theorem balAt_engine_closed {y r : ℚ} (P : ℚ) (hr : 0 < r)
    (hM : (tenure_months y).toNat ≠ 0) (m : ℕ) :
    balAt (monthly_rate r) (emi P y r) P m
      = P * ((1 + monthly_rate r) ^ (tenure_months y).toNat - (1 + monthly_rate r) ^ m)
          / ((1 + monthly_rate r) ^ (tenure_months y).toNat - 1) :=
  balAt_emi_closed (monthly_rate r) P _ (monthly_rate_pos hr) hM m

theorem balAt_engine_nonneg {P y r : ℚ} (hP : 0 < P) (hr : 0 < r)
    (hM : (tenure_months y).toNat ≠ 0) {m : ℕ} (hm : m ≤ (tenure_months y).toNat) :
    0 ≤ balAt (monthly_rate r) (emi P y r) P m := by
  have hmr := monthly_rate_pos hr
  rw [balAt_engine_closed P hr hM m]
  have hnum : (0 : ℚ) ≤ (1 + monthly_rate r) ^ (tenure_months y).toNat
      - (1 + monthly_rate r) ^ m :=
    sub_nonneg.mpr (pow_le_pow_right₀ (by linarith) hm)
  have hden : (0 : ℚ) < (1 + monthly_rate r) ^ (tenure_months y).toNat - 1 :=
    sub_pos.mpr (one_lt_pow₀ (by linarith) hM)
  exact div_nonneg (mul_nonneg hP.le hnum) hden.le

theorem balAt_engine_at_months {y r : ℚ} (P : ℚ) (hr : 0 < r)
    (hM : (tenure_months y).toNat ≠ 0) :
    balAt (monthly_rate r) (emi P y r) P (tenure_months y).toNat = 0 := by
  rw [balAt_engine_closed P hr hM, sub_self, mul_zero, zero_div]

theorem chain'_map_range {α : Type} (f : ℕ → α) (R : α → α → Prop) (n : ℕ)
    (h : ∀ i, i + 1 < n → R (f i) (f (i + 1))) : List.Chain' R ((List.range n).map f) := by
  rw [List.chain'_map]
  cases n with
  | zero => simp
  | succ m =>
    rw [List.chain'_range_succ]
    intro i hi
    exact h i (by omega)

theorem sum_map_range_sub (f : ℕ → ℚ) :
    ∀ n : ℕ, ((List.range n).map (fun i => f i - f (i + 1))).sum = f 0 - f n
  | 0 => by simp
  | n + 1 => by
    rw [List.range_succ, List.map_append, List.sum_append, sum_map_range_sub f n]
    simp only [List.map_cons, List.map_nil, List.sum_cons, List.sum_nil]
    ring

theorem abs_sum_pyround (g : ℕ → ℚ) :
    ∀ n : ℕ,
      |((List.range n).map (fun i => ((pyround (g i) : ℤ) : ℚ))).sum
          - ((List.range n).map g).sum| ≤ n * (1/2)
  | 0 => by simp
  | n + 1 => by
    have h1 := abs_sum_pyround g n
    have h2 := abs_pyround_sub (g n)
    rw [List.range_succ, List.map_append, List.map_append, List.sum_append, List.sum_append]
    simp only [List.map_cons, List.map_nil, List.sum_cons, List.sum_nil, add_zero]
    have heq :
        ((List.range n).map (fun i => ((pyround (g i) : ℤ) : ℚ))).sum + (pyround (g n) : ℚ)
            - (((List.range n).map g).sum + g n)
          = (((List.range n).map (fun i => ((pyround (g i) : ℤ) : ℚ))).sum
              - ((List.range n).map g).sum) + ((pyround (g n) : ℚ) - g n) := by ring
    rw [heq]
    refine le_trans (le_trans (abs_add _ _) (add_le_add h1 h2)) (le_of_eq ?_)
    push_cast
    ring

theorem yp_raw_eq {y r : ℚ} (P : ℚ) (hr : 0 < r) (hM : (tenure_months y).toNat ≠ 0) (i : ℕ) :
    balAt (monthly_rate r) (emi P y r) P (12 * i)
        - balAt (monthly_rate r) (emi P y r) P (12 * i + 12)
      = P * ((1 + monthly_rate r) ^ (12 * i + 12) - (1 + monthly_rate r) ^ (12 * i))
          / ((1 + monthly_rate r) ^ (tenure_months y).toNat - 1) := by
  rw [balAt_engine_closed P hr hM, balAt_engine_closed P hr hM, div_sub_div_same]
  congr 1
  ring

theorem yp_raw_mono {P y r : ℚ} (hP : 0 < P) (hr : 0 < r)
    (hM : (tenure_months y).toNat ≠ 0) (i : ℕ) :
    balAt (monthly_rate r) (emi P y r) P (12 * i)
        - balAt (monthly_rate r) (emi P y r) P (12 * i + 12)
      ≤ balAt (monthly_rate r) (emi P y r) P (12 * (i + 1))
        - balAt (monthly_rate r) (emi P y r) P (12 * (i + 1) + 12) := by
  have hmr := monthly_rate_pos hr
  rw [yp_raw_eq P hr hM i, yp_raw_eq P hr hM (i + 1)]
  have hD : (0 : ℚ) < (1 + monthly_rate r) ^ (tenure_months y).toNat - 1 :=
    sub_pos.mpr (one_lt_pow₀ (by linarith) hM)
  have ha0 : (0 : ℚ) ≤ 1 + monthly_rate r := by linarith
  have hkey : (1 + monthly_rate r) ^ (12 * i + 12) - (1 + monthly_rate r) ^ (12 * i)
      ≤ (1 + monthly_rate r) ^ (12 * (i + 1) + 12) - (1 + monthly_rate r) ^ (12 * (i + 1)) := by
    rw [show 12 * (i + 1) + 12 = (12 * i + 12) + 12 from by omega,
      show 12 * (i + 1) = 12 * i + 12 from by omega, pow_add, pow_add, pow_add]
    nlinarith [mul_nonneg (pow_nonneg ha0 (12 * i)) (sq_nonneg ((1 + monthly_rate r) ^ 12 - 1))]
  have h2 : P * ((1 + monthly_rate r) ^ (12 * i + 12) - (1 + monthly_rate r) ^ (12 * i))
      ≤ P * ((1 + monthly_rate r) ^ (12 * (i + 1) + 12) - (1 + monthly_rate r) ^ (12 * (i + 1))) :=
    mul_le_mul_of_nonneg_left hkey hP.le
  exact div_le_div_of_nonneg_right h2 hD.le


theorem schedule_getElem (P y r : ℚ) (i : ℕ) (hi : i < (pytrunc y).toNat) :
    (mkResult P y r).schedule[i]? = some (rowOf (monthly_rate r) (emi P y r) P 1 i) := by
  rw [schedule_eq, List.getElem?_map, List.getElem?_range hi, Option.map_some']

theorem schedule_mem {P y r : ℚ} {row : ScheduleRow}
    (h : row ∈ (mkResult P y r).schedule) :
    ∃ i, i < (pytrunc y).toNat ∧ row = rowOf (monthly_rate r) (emi P y r) P 1 i := by
  rw [schedule_eq] at h
  obtain ⟨i, hi, hrow⟩ := List.mem_map.mp h
  exact ⟨i, List.mem_range.mp hi, hrow.symm⟩

/-- C2: the function returns `None` precisely when the principal, the tenure
or the rate is zero or negative; on any strictly positive triple it returns a
result, so the nonpositivity test is the only validation performed. -/
theorem C2_validation (P y r : ℚ) :
    calculate_home_loan P y r = none ↔ (P ≤ 0 ∨ y ≤ 0 ∨ r ≤ 0) := by
  unfold calculate_home_loan
  split_ifs with h
  · simp [h]
  · simp [h]

theorem C2_validation_witness : calculate_home_loan 0 1 1 = none :=
  (C2_validation 0 1 1).mpr (Or.inl le_rfl)

/-- C3 (amended): the divisor `(1+monthlyRate)^months - 1` of the EMI formula
is nonzero whenever the rate is positive and the tenure is at least one
month (`tenureYears ≥ 1/12`, hence `months ≥ 1`); positivity of the inputs
alone does not suffice. -/
theorem C3_divisor_nonzero (y r : ℚ) (hr : 0 < r) (hy : 1/12 ≤ y) : emiDivisor y r ≠ 0 := by
  have hy0 : 0 < y := lt_of_lt_of_le (by norm_num) hy
  have hmr := monthly_rate_pos hr
  have hM : (tenure_months y).toNat ≠ 0 := by
    have h1 : (1 : ℤ) ≤ tenure_months y := by
      rw [tenure_months_eq_floor hy0]
      exact Int.le_floor.mpr (by push_cast; linarith)
    omega
  unfold emiDivisor
  exact ne_of_gt (sub_pos.mpr (one_lt_pow₀ (by linarith) hM))

theorem C3_divisor_nonzero_witness : emiDivisor 1 12 ≠ 0 :=
  C3_divisor_nonzero 1 12 (by norm_num) (by norm_num)

/-- C3 (counterexample): with the strictly positive inputs
`tenureYears = 1/24`, `rate = 12` the truncated month count is `0` and the
divisor of the EMI formula vanishes, so the positivity precondition alone
does not make the division well-defined. -/
theorem C3_divisor_zero_example :
    (0 : ℚ) < 1/24 ∧ (0 : ℚ) < 12 ∧ emiDivisor (1/24) 12 = 0 := by
  refine ⟨by norm_num, by norm_num, ?_⟩
  have hM : tenure_months (1/24 : ℚ) = 0 := by
    rw [tenure_months_eq_floor (by norm_num), show (1/24 : ℚ) * 12 = 1/2 from by norm_num]
    exact Int.floor_eq_iff.mpr ⟨by norm_num, by norm_num⟩
  rw [emiDivisor, hM]
  norm_num

theorem spec_payment_eq (P : ℚ) {y : ℚ} (r : ℚ) (hy : 0 < y) :
    spec_payment P y r = emi P y r := by
  unfold spec_payment spec_monthlyRate spec_months emi emiDivisor monthly_rate
  rw [tenure_months_eq_floor hy]

theorem tenure_months_25 : tenure_months (25 : ℚ) = 300 := by
  rw [tenure_months_eq_floor (by norm_num),
    show (25 : ℚ) * 12 = ((300 : ℤ) : ℚ) from by norm_num, Int.floor_intCast]

theorem monthly_emi_concrete : emiOf 2500000 25 (17/2) = 20131 := by
  rw [emiOf, calc_pos_eq (by norm_num) (by norm_num) (by norm_num), Option.map_some',
    Option.getD_some]
  show pyround (emi 2500000 25 (17/2)) = 20131
  have hemi : emi 2500000 25 (17/2)
      = 2500000 * (17/2/100/12 : ℚ) * (1 + 17/2/100/12) ^ (300 : ℕ)
          / ((1 + 17/2/100/12) ^ (300 : ℕ) - 1) := by
    rw [emi, emiDivisor, monthly_rate, tenure_months_25]
    rfl
  rw [hemi]
  have h := pyround_eq_of_gt_half
    (2500000 * (17/2/100/12 : ℚ) * (1 + 17/2/100/12) ^ (300 : ℕ)
      / ((1 + 17/2/100/12) ^ (300 : ℕ) - 1)) 20130 (by norm_num) (by norm_num)
  rw [h]
  norm_num

/-- C1 (amended): on every strictly positive input the returned monthly
payment is the Python round of the standard amortization formula with
`monthlyRate = (rate/100)/12` and `months = floor(tenureYears*12)`; for
principal 2,500,000, tenure 25 years and rate 8.5% the month count is 300
and the rounded payment is 20,131 (the spec's figure of 20,127 is wrong). -/
theorem C1_payment_formula :
    (∀ P y r : ℚ, 0 < P → 0 < y → 0 < r →
        calculate_home_loan P y r = some (mkResult P y r)
          ∧ (mkResult P y r).monthly_emi = pyround (spec_payment P y r))
      ∧ spec_months 25 = 300 ∧ emiOf 2500000 25 (17/2) = 20131 := by
  refine ⟨fun P y r hP hy hr => ⟨calc_pos_eq hP hy hr, ?_⟩, ?_, monthly_emi_concrete⟩
  · rw [spec_payment_eq P r hy]
    rfl
  · rw [spec_months, show (25 : ℚ) * 12 = ((300 : ℤ) : ℚ) from by norm_num, Int.floor_intCast]

theorem C1_payment_formula_witness :
    calculate_home_loan 100 1 12 = some (mkResult 100 1 12)
      ∧ (mkResult 100 1 12).monthly_emi = pyround (spec_payment 100 1 12) :=
  C1_payment_formula.1 100 1 12 (by norm_num) (by norm_num) (by norm_num)

/-- C1 (counterexample): the claim's concrete figure is wrong: at principal
2,500,000, tenure 25 years, rate 8.5% the engine's rounded monthly payment
is 20,131, not 20,127. -/
theorem C1_payment_formula_counterexample :
    emiOf 2500000 25 (17/2) = 20131 ∧ (20131 : ℤ) ≠ 20127 :=
  ⟨monthly_emi_concrete, by decide⟩

/-- C5 (amended): on every strictly positive input the schedule is a
chronological list with 1-based `Year` indices and exactly `int(tenureYears)`
rows of 12 simulated months each — not `ceil(months/12)` rows; the two
agree exactly when the tenure is a whole number of years, as in the 25-year
and 1-year scenarios. -/
theorem C5_schedule_rows :
    ∀ P y r : ℚ, 0 < P → 0 < y → 0 < r →
      calculate_home_loan P y r = some (mkResult P y r)
        ∧ (mkResult P y r).schedule.length = (⌊y⌋).toNat
        ∧ yearsIndexed (mkResult P y r).schedule := by
  intro P y r hP hy hr
  refine ⟨calc_pos_eq hP hy hr, ?_, ?_⟩
  · show (buildSchedule _ _ (pytrunc y).toNat 1 P).length = (⌊y⌋).toNat
    rw [buildSchedule_length, pytrunc_of_nonneg hy.le]
  · rw [yearsIndexed, schedule_eq, List.length_map, List.length_range, List.map_map,
      List.range'_eq_map_range]
    congr 1

theorem C5_schedule_rows_witness :
    (mkResult 2500000 25 (17/2)).schedule.length = 25 := by
  have h := (C5_schedule_rows 2500000 25 (17/2) (by norm_num) (by norm_num) (by norm_num)).2.1
  rw [h, show ⌊(25 : ℚ)⌋ = (25 : ℤ) from by
    rw [show (25 : ℚ) = ((25 : ℤ) : ℚ) from by norm_num, Int.floor_intCast]]
  rfl

/-- C5 (counterexample): for the strictly positive input principal 100,000,
tenure 1.5 years, rate 10% the month count is `floor(1.5*12) = 18` and the
claim predicts `ceil(18/12) = 2` rows, but the schedule has exactly 1 row. -/
theorem C5_schedule_rows_counterexample :
    (scheduleOf 100000 (3/2) 10).length = 1
      ∧ (⌈((spec_months (3/2 : ℚ) : ℚ)) / 12⌉ : ℤ) = 2 := by
  constructor
  · rw [scheduleOf, calc_pos_eq (by norm_num) (by norm_num) (by norm_num), Option.map_some',
      Option.getD_some]
    show (buildSchedule _ _ (pytrunc (3/2 : ℚ)).toNat 1 100000).length = 1
    rw [buildSchedule_length, pytrunc_of_nonneg (by norm_num),
      show ⌊(3/2 : ℚ)⌋ = 1 from Int.floor_eq_iff.mpr ⟨by norm_num, by norm_num⟩]
    rfl
  · have h18 : spec_months (3/2 : ℚ) = 18 := by
      rw [spec_months, show (3/2 : ℚ) * 12 = ((18 : ℤ) : ℚ) from by norm_num, Int.floor_intCast]
    rw [h18, show ((18 : ℤ) : ℚ) / 12 = (3/2 : ℚ) from by norm_num]
    exact Int.ceil_eq_iff.mpr ⟨by norm_num, by norm_num⟩

/-- C6: on every strictly positive input, each schedule row's recorded
closing balance equals the next row's recorded opening balance. -/
theorem C6_closing_opening :
    ∀ P y r : ℚ, 0 < P → 0 < y → 0 < r →
      calculate_home_loan P y r = some (mkResult P y r)
        ∧ chainClosingOpening (mkResult P y r).schedule := by
  intro P y r hP hy hr
  have hM12 := twelve_mul_le_months hy
  refine ⟨calc_pos_eq hP hy hr, ?_⟩
  rw [chainClosingOpening, schedule_eq]
  apply chain'_map_range
  intro i hi
  have hM0 : (tenure_months y).toNat ≠ 0 := by omega
  have hb : 0 ≤ balAt (monthly_rate r) (emi P y r) P (12 * i + 12) :=
    balAt_engine_nonneg hP hr hM0 (by omega)
  show pyround (max 0 (balAt (monthly_rate r) (emi P y r) P (12 * i + 12)))
      = pyround (balAt (monthly_rate r) (emi P y r) P (12 * (i + 1)))
  rw [max_eq_right hb, show 12 * (i + 1) = 12 * i + 12 from by omega]

theorem C6_closing_opening_witness :
    calculate_home_loan 100000 2 10 = some (mkResult 100000 2 10)
      ∧ chainClosingOpening (mkResult 100000 2 10).schedule :=
  C6_closing_opening 100000 2 10 (by norm_num) (by norm_num) (by norm_num)

theorem pytrunc_natCast (n : ℕ) : (pytrunc ((n : ℚ))).toNat = n := by
  rw [pytrunc_of_nonneg (Nat.cast_nonneg n), Int.floor_natCast, Int.toNat_natCast]

theorem tenure_months_natCast (n : ℕ) : (tenure_months ((n : ℚ))).toNat = 12 * n := by
  have h : tenure_months ((n : ℚ)) = ((12 * n : ℕ) : ℤ) := by
    rcases Nat.eq_zero_or_pos n with h0 | h0
    · subst h0
      rw [tenure_months, show ((0 : ℕ) : ℚ) * 12 = (0 : ℚ) from by norm_num]
      rw [pytrunc_of_nonneg le_rfl, Int.floor_zero]
      norm_num
    · have hn : (0 : ℚ) < (n : ℚ) := by exact_mod_cast h0
      rw [tenure_months_eq_floor hn,
        show ((n : ℚ)) * 12 = ((12 * n : ℕ) : ℚ) from by push_cast; ring, Int.floor_natCast]
  rw [h, Int.toNat_natCast]

/-- C8 (amended): on every strictly positive input every recorded closing
balance is nonnegative (it is rounded after flooring at zero); and whenever
the tenure is a whole number `n ≥ 1` of years the final (`n`-th) row closes
at exactly zero.  For fractional tenures the final closing balance need not
be zero. -/
theorem C8_closing_balances :
    ∀ P y r : ℚ, 0 < P → 0 < y → 0 < r →
      allClosingNonneg (mkResult P y r).schedule ∧ finalClosingZero P y r := by
  intro P y r hP hy hr
  constructor
  · intro row hrow
    obtain ⟨i, hi, hrow⟩ := schedule_mem hrow
    rw [hrow]
    exact pyround_nonneg (le_max_left _ _)
  · intro n hn hyn
    have htr : (pytrunc y).toNat = n := by rw [hyn, pytrunc_natCast]
    have hM : (tenure_months y).toNat = 12 * n := by rw [hyn, tenure_months_natCast]
    have hM0 : (tenure_months y).toNat ≠ 0 := by omega
    have hget := schedule_getElem P y r (n - 1) (by omega)
    rw [closingAt, hget, Option.map_some', Option.getD_some]
    show pyround (max 0 (balAt (monthly_rate r) (emi P y r) P (12 * (n - 1) + 12))) = 0
    rw [show 12 * (n - 1) + 12 = (tenure_months y).toNat from by omega,
      balAt_engine_at_months P hr hM0, max_self, pyround_zero]

theorem C8_closing_balances_witness :
    allClosingNonneg (mkResult 100000 2 10).schedule ∧ finalClosingZero 100000 2 10 :=
  C8_closing_balances 100000 2 10 (by norm_num) (by norm_num) (by norm_num)

/-- C9: on every strictly positive input the recorded yearly principal
amounts are non-decreasing and the recorded yearly interest amounts are
non-increasing across consecutive schedule rows. -/
theorem C9_monotone :
    ∀ P y r : ℚ, 0 < P → 0 < y → 0 < r →
      calculate_home_loan P y r = some (mkResult P y r)
        ∧ principalNondecreasing (mkResult P y r).schedule
        ∧ interestNonincreasing (mkResult P y r).schedule := by
  intro P y r hP hy hr
  have hM12 := twelve_mul_le_months hy
  refine ⟨calc_pos_eq hP hy hr, ?_, ?_⟩
  · rw [principalNondecreasing, schedule_eq]
    apply chain'_map_range
    intro i hi
    have hM0 : (tenure_months y).toNat ≠ 0 := by omega
    show pyround (balAt (monthly_rate r) (emi P y r) P (12 * i)
          - balAt (monthly_rate r) (emi P y r) P (12 * i + 12))
        ≤ pyround (balAt (monthly_rate r) (emi P y r) P (12 * (i + 1))
          - balAt (monthly_rate r) (emi P y r) P (12 * (i + 1) + 12))
    exact pyround_mono (yp_raw_mono hP hr hM0 i)
  · rw [interestNonincreasing, schedule_eq]
    apply chain'_map_range
    intro i hi
    have hM0 : (tenure_months y).toNat ≠ 0 := by omega
    show pyround (emi P y r * 12 - (balAt (monthly_rate r) (emi P y r) P (12 * (i + 1))
          - balAt (monthly_rate r) (emi P y r) P (12 * (i + 1) + 12)))
        ≤ pyround (emi P y r * 12 - (balAt (monthly_rate r) (emi P y r) P (12 * i)
          - balAt (monthly_rate r) (emi P y r) P (12 * i + 12)))
    exact pyround_mono (by linarith [yp_raw_mono hP hr hM0 i])

theorem C9_monotone_witness :
    calculate_home_loan 2500000 25 (17/2) = some (mkResult 2500000 25 (17/2))
      ∧ principalNondecreasing (mkResult 2500000 25 (17/2)).schedule
      ∧ interestNonincreasing (mkResult 2500000 25 (17/2)).schedule :=
  C9_monotone 2500000 25 (17/2) (by norm_num) (by norm_num) (by norm_num)

theorem months_three_halves : (tenure_months (3/2 : ℚ)).toNat = 18 := by
  rw [show tenure_months (3/2 : ℚ) = 18 from by
    rw [tenure_months_eq_floor (by norm_num),
      show (3/2 : ℚ) * 12 = ((18 : ℤ) : ℚ) from by norm_num, Int.floor_intCast]]
  rfl

theorem rows_three_halves : (pytrunc (3/2 : ℚ)).toNat = 1 := by
  rw [pytrunc_of_nonneg (by norm_num),
    show ⌊(3/2 : ℚ)⌋ = 1 from Int.floor_eq_iff.mpr ⟨by norm_num, by norm_num⟩]
  rfl

/-- C8 (counterexample): at the strictly positive input principal 150,000,
tenure 1.5 years, rate 10% the schedule's single (hence final) row records
closing balance 52,509, not 0. -/
theorem C8_closing_balances_counterexample :
    (scheduleOf 150000 (3/2) 10).length = 1
      ∧ closingAt (scheduleOf 150000 (3/2) 10) 0 = 52509 ∧ (52509 : ℤ) ≠ 0 := by
  have hsched : scheduleOf 150000 (3/2) 10 = (mkResult 150000 (3/2) 10).schedule := by
    rw [scheduleOf, calc_pos_eq (by norm_num) (by norm_num) (by norm_num), Option.map_some',
      Option.getD_some]
  have hM0 : (tenure_months (3/2 : ℚ)).toNat ≠ 0 := by rw [months_three_halves]; omega
  refine ⟨?_, ?_, by decide⟩
  · rw [hsched]
    show (buildSchedule _ _ (pytrunc (3/2 : ℚ)).toNat 1 150000).length = 1
    rw [buildSchedule_length, rows_three_halves]
  · rw [hsched, closingAt, schedule_getElem 150000 (3/2) 10 0 (by rw [rows_three_halves]; omega),
      Option.map_some', Option.getD_some]
    show pyround (max 0 (balAt (monthly_rate 10) (emi 150000 (3/2) 10) 150000 (12 * 0 + 12)))
        = 52509
    rw [show (12 * 0 + 12 : ℕ) = 12 from rfl, balAt_engine_closed 150000 (by norm_num) hM0 12,
      months_three_halves, monthly_rate]
    have h1 : ((52509 : ℤ) : ℚ)
        ≤ 150000 * ((1 + 10/100/12 : ℚ) ^ 18 - (1 + 10/100/12) ^ 12)
            / ((1 + 10/100/12) ^ 18 - 1) := by norm_num
    have h2 : 150000 * ((1 + 10/100/12 : ℚ) ^ 18 - (1 + 10/100/12) ^ 12)
        / ((1 + 10/100/12) ^ 18 - 1) < ((52509 : ℤ) : ℚ) + 1/2 := by norm_num
    rw [max_eq_right (by exact_mod_cast le_trans (by norm_num) h1)]
    exact pyround_eq_of_lt_half _ 52509 h1 h2

theorem abs_three_halves_int {z : ℤ} (h : |((z : ℤ) : ℚ)| ≤ 3/2) : |z| ≤ 1 := by
  by_contra hcon
  push_neg at hcon
  have h2 : (2 : ℤ) ≤ |z| := by omega
  have h3 : (2 : ℚ) ≤ |((z : ℤ) : ℚ)| := by
    rw [← Int.cast_abs]
    exact_mod_cast h2
  linarith

/-- C10: a simulated year's accumulated interest plus principal is exactly
twelve monthly payments before rounding; every row records the same rounded
`EMI*12` constant; and each row's rounded interest plus principal matches
that constant to within one currency unit. -/
theorem C10_row_identities :
    ∀ P y r : ℚ, 0 < P → 0 < y → 0 < r →
      yearConservation (monthly_rate r) (emi P y r)
        ∧ emi12Fields (mkResult P y r).schedule (pyround (emi P y r * 12))
        ∧ rowSumsMatchEmi12 (mkResult P y r).schedule := by
  intro P y r hP hy hr
  refine ⟨?_, ?_, ?_⟩
  · intro b
    simp only [runYear_eq]
    ring
  · intro row hrow
    obtain ⟨i, hi, hrw⟩ := schedule_mem hrow
    rw [hrw]
    rfl
  · intro row hrow
    obtain ⟨i, hi, hrw⟩ := schedule_mem hrow
    rw [hrw]
    show |pyround (emi P y r * 12 - (balAt (monthly_rate r) (emi P y r) P (12 * i)
          - balAt (monthly_rate r) (emi P y r) P (12 * i + 12)))
        + pyround (balAt (monthly_rate r) (emi P y r) P (12 * i)
          - balAt (monthly_rate r) (emi P y r) P (12 * i + 12))
        - pyround (emi P y r * 12)| ≤ 1
    have hA := abs_pyround_sub (emi P y r * 12 - (balAt (monthly_rate r) (emi P y r) P (12 * i)
      - balAt (monthly_rate r) (emi P y r) P (12 * i + 12)))
    have hB := abs_pyround_sub (balAt (monthly_rate r) (emi P y r) P (12 * i)
      - balAt (monthly_rate r) (emi P y r) P (12 * i + 12))
    have hC := abs_pyround_sub (emi P y r * 12)
    apply abs_three_halves_int
    push_cast
    rw [abs_sub_comm] at hC
    have heq :
        ((pyround (emi P y r * 12 - (balAt (monthly_rate r) (emi P y r) P (12 * i)
            - balAt (monthly_rate r) (emi P y r) P (12 * i + 12))) : ℤ) : ℚ)
          + ((pyround (balAt (monthly_rate r) (emi P y r) P (12 * i)
            - balAt (monthly_rate r) (emi P y r) P (12 * i + 12)) : ℤ) : ℚ)
          - ((pyround (emi P y r * 12) : ℤ) : ℚ)
        = (((pyround (emi P y r * 12 - (balAt (monthly_rate r) (emi P y r) P (12 * i)
              - balAt (monthly_rate r) (emi P y r) P (12 * i + 12))) : ℤ) : ℚ)
            - (emi P y r * 12 - (balAt (monthly_rate r) (emi P y r) P (12 * i)
              - balAt (monthly_rate r) (emi P y r) P (12 * i + 12))))
          + (((pyround (balAt (monthly_rate r) (emi P y r) P (12 * i)
              - balAt (monthly_rate r) (emi P y r) P (12 * i + 12)) : ℤ) : ℚ)
            - (balAt (monthly_rate r) (emi P y r) P (12 * i)
              - balAt (monthly_rate r) (emi P y r) P (12 * i + 12)))
          + ((emi P y r * 12) - ((pyround (emi P y r * 12) : ℤ) : ℚ)) := by ring
    rw [heq]
    refine le_trans (abs_add _ _) (le_trans (add_le_add_right (abs_add _ _) _) ?_)
    have hsum := add_le_add (add_le_add hA hB) hC
    linarith

theorem C10_row_identities_witness :
    yearConservation (monthly_rate 10) (emi 100000 2 10)
      ∧ emi12Fields (mkResult 100000 2 10).schedule (pyround (emi 100000 2 10 * 12))
      ∧ rowSumsMatchEmi12 (mkResult 100000 2 10).schedule :=
  C10_row_identities 100000 2 10 (by norm_num) (by norm_num) (by norm_num)

theorem intCast_list_sum : ∀ l : List ℤ, ((l.sum : ℤ) : ℚ) = (l.map (fun z : ℤ => (z : ℚ))).sum
  | [] => by simp
  | a :: l => by
    rw [List.sum_cons, List.map_cons, List.sum_cons, ← intCast_list_sum l]
    push_cast
    ring

theorem abs_intsum_pyround (g : ℕ → ℚ) (n : ℕ) :
    |((((List.range n).map (fun i => pyround (g i))).sum : ℤ) : ℚ)
        - ((List.range n).map g).sum| ≤ n * (1/2) := by
  have h := abs_sum_pyround g n
  rw [intCast_list_sum, List.map_map]
  exact h

/-- C7 (amended): when the tenure is a whole number `n ≥ 1` of years, the
recorded yearly principal amounts sum to the loan principal to within `n`
currency units; for fractional tenures the truncated schedule can leave an
arbitrarily large gap. -/
theorem C7_sum_principal :
    ∀ (P r : ℚ) (n : ℕ), 0 < P → 0 < r → 1 ≤ n →
      calculate_home_loan P (n : ℚ) r = some (mkResult P (n : ℚ) r)
        ∧ |((sumPrincipal (mkResult P (n : ℚ) r).schedule : ℤ) : ℚ) - P| ≤ (n : ℚ) := by
  intro P r n hP hr hn
  have hn' : (0 : ℚ) < (n : ℚ) := by exact_mod_cast hn
  refine ⟨calc_pos_eq hP hn' hr, ?_⟩
  have htr : (pytrunc ((n : ℚ))).toNat = n := pytrunc_natCast n
  have hM : (tenure_months ((n : ℚ))).toNat = 12 * n := tenure_months_natCast n
  have hM0 : (tenure_months ((n : ℚ))).toNat ≠ 0 := by omega
  have hcomp : ScheduleRow.principalPaidYearly ∘ rowOf (monthly_rate r) (emi P (n : ℚ) r) P 1
      = fun i => pyround (balAt (monthly_rate r) (emi P (n : ℚ) r) P (12 * i)
        - balAt (monthly_rate r) (emi P (n : ℚ) r) P (12 * (i + 1))) := by
    funext i
    show pyround (balAt (monthly_rate r) (emi P (n : ℚ) r) P (12 * i)
        - balAt (monthly_rate r) (emi P (n : ℚ) r) P (12 * i + 12)) = _
    rw [Nat.mul_succ]
  rw [sumPrincipal, schedule_eq, htr, List.map_map, hcomp]
  have key := abs_intsum_pyround (fun i => balAt (monthly_rate r) (emi P (n : ℚ) r) P (12 * i)
    - balAt (monthly_rate r) (emi P (n : ℚ) r) P (12 * (i + 1))) n
  have hraw := sum_map_range_sub (fun i => balAt (monthly_rate r) (emi P (n : ℚ) r) P (12 * i)) n
  have hf0 : balAt (monthly_rate r) (emi P (n : ℚ) r) P (12 * 0) = P := rfl
  have hfn : balAt (monthly_rate r) (emi P (n : ℚ) r) P (12 * n) = 0 := by
    rw [show 12 * n = (tenure_months ((n : ℚ))).toNat from hM.symm]
    exact balAt_engine_at_months P hr hM0
  rw [hraw, hf0, hfn, sub_zero] at key
  refine le_trans key ?_
  linarith

theorem C7_sum_principal_witness :
    calculate_home_loan 100000 ((2 : ℕ) : ℚ) 10 = some (mkResult 100000 ((2 : ℕ) : ℚ) 10)
      ∧ |((sumPrincipal (mkResult 100000 ((2 : ℕ) : ℚ) 10).schedule : ℤ) : ℚ) - 100000|
          ≤ (((2 : ℕ) : ℚ)) :=
  C7_sum_principal 100000 10 2 (by norm_num) (by norm_num) (by norm_num)

/-- C7 (counterexample): at the strictly positive input principal 120,000,
tenure 1.5 years, rate 12% the single schedule row records principal 77,590,
which misses the principal 120,000 by 42,410 — far beyond any
number-of-years tolerance. -/
theorem C7_sum_principal_counterexample :
    sumPrincipal (scheduleOf 120000 (3/2) 12) = 77590
      ∧ ¬(|((77590 : ℤ) : ℚ) - 120000| ≤ 2) := by
  constructor
  · have hsched : scheduleOf 120000 (3/2) 12 = (mkResult 120000 (3/2) 12).schedule := by
      rw [scheduleOf, calc_pos_eq (by norm_num) (by norm_num) (by norm_num), Option.map_some',
        Option.getD_some]
    have hM0 : (tenure_months (3/2 : ℚ)).toNat ≠ 0 := by rw [months_three_halves]; omega
    rw [hsched, sumPrincipal, schedule_eq, rows_three_halves, show List.range 1 = [0] from rfl, List.map_cons,
      List.map_cons, List.map_nil, List.map_nil, List.sum_cons, List.sum_nil, add_zero]
    show pyround (balAt (monthly_rate 12) (emi 120000 (3/2) 12) 120000 (12 * 0)
        - balAt (monthly_rate 12) (emi 120000 (3/2) 12) 120000 (12 * 0 + 12)) = 77590
    rw [show (12 * 0 + 12 : ℕ) = 12 from rfl,
      show balAt (monthly_rate 12) (emi 120000 (3/2) 12) 120000 (12 * 0) = 120000 from rfl,
      balAt_engine_closed 120000 (by norm_num) hM0 12, months_three_halves, monthly_rate]
    have h1 : ((77589 : ℤ) : ℚ) + 1/2
        < 120000 - 120000 * ((1 + 12/100/12 : ℚ) ^ 18 - (1 + 12/100/12) ^ 12)
            / ((1 + 12/100/12) ^ 18 - 1) := by norm_num
    have h2 : (120000 : ℚ) - 120000 * ((1 + 12/100/12 : ℚ) ^ 18 - (1 + 12/100/12) ^ 12)
        / ((1 + 12/100/12) ^ 18 - 1) < ((77589 : ℤ) : ℚ) + 1 := by norm_num
    rw [pyround_eq_of_gt_half _ 77589 h1 h2]
    decide
  · norm_num

theorem C4_bounds :
    (106619 : ℚ) < emi (200001/2) 1 12 * 12 ∧ emi (200001/2) 1 12 * 12 < 213239/2 := by
  have h12 : (tenure_months (1 : ℚ)).toNat = 12 := by
    rw [show tenure_months (1 : ℚ) = 12 from by
      rw [tenure_months_eq_floor (by norm_num),
        show (1 : ℚ) * 12 = ((12 : ℤ) : ℚ) from by norm_num, Int.floor_intCast]]
    rfl
  have hemi : emi (200001/2) 1 12
      = (200001/2) * (12/100/12 : ℚ) * (1 + 12/100/12) ^ (12 : ℕ)
          / ((1 + 12/100/12) ^ (12 : ℕ) - 1) := by
    rw [emi, emiDivisor, monthly_rate, h12]
  rw [hemi]
  constructor <;> norm_num

/-- C4 (amended): on every strictly positive input the returned totalPayment
is the Python round of the exact monthly payment times the month count, the
returned totalInterest is the round of that product minus the principal, and
the returned totalInterest equals totalPayment minus principal to within one
currency unit — but, because the fields are rounded, not always exactly. -/
theorem C4_totals :
    ∀ P y r : ℚ, 0 < P → 0 < y → 0 < r →
      calculate_home_loan P y r = some (mkResult P y r)
        ∧ (mkResult P y r).total_payment = pyround (spec_payment P y r * (spec_months y : ℚ))
        ∧ (mkResult P y r).total_interest
            = pyround (spec_payment P y r * (spec_months y : ℚ) - P)
        ∧ |((mkResult P y r).total_interest : ℚ)
            - (((mkResult P y r).total_payment : ℚ) - P)| ≤ 1 := by
  intro P y r hP hy hr
  have hsm : spec_months y = tenure_months y := by
    rw [spec_months, tenure_months_eq_floor hy]
  have hsp : spec_payment P y r = emi P y r := spec_payment_eq P r hy
  refine ⟨calc_pos_eq hP hy hr, by rw [hsp, hsm]; rfl, by rw [hsp, hsm]; rfl, ?_⟩
  have h1 := abs_pyround_sub (emi P y r * (tenure_months y : ℚ) - P)
  have h2 := abs_pyround_sub (emi P y r * (tenure_months y : ℚ))
  show |(pyround (emi P y r * (tenure_months y : ℚ) - P) : ℚ)
      - ((pyround (emi P y r * (tenure_months y : ℚ)) : ℚ) - P)| ≤ 1
  have heq : (pyround (emi P y r * (tenure_months y : ℚ) - P) : ℚ)
        - ((pyround (emi P y r * (tenure_months y : ℚ)) : ℚ) - P)
      = ((pyround (emi P y r * (tenure_months y : ℚ) - P) : ℚ)
          - (emi P y r * (tenure_months y : ℚ) - P))
        + ((emi P y r * (tenure_months y : ℚ))
          - (pyround (emi P y r * (tenure_months y : ℚ)) : ℚ)) := by ring
  rw [heq]
  refine le_trans (abs_add _ _) ?_
  rw [abs_sub_comm] at h2
  linarith

theorem C4_totals_witness :
    calculate_home_loan 100000 2 10 = some (mkResult 100000 2 10)
      ∧ (mkResult 100000 2 10).total_payment
          = pyround (spec_payment 100000 2 10 * (spec_months 2 : ℚ))
      ∧ (mkResult 100000 2 10).total_interest
          = pyround (spec_payment 100000 2 10 * (spec_months 2 : ℚ) - 100000)
      ∧ |((mkResult 100000 2 10).total_interest : ℚ)
          - (((mkResult 100000 2 10).total_payment : ℚ) - 100000)| ≤ 1 :=
  C4_totals 100000 2 10 (by norm_num) (by norm_num) (by norm_num)

/-- C4 (counterexample): for the strictly positive but fractional principal
100,000.5 (tenure 1 year, rate 12%) the engine returns totalInterest 6,619
and totalPayment 106,619, yet totalPayment minus principal is 6,618.5, so
the claimed exact identity fails on the returned values. -/
theorem C4_totals_counterexample :
    totalInterestOf (200001/2) 1 12 = 6619 ∧ totalPaymentOf (200001/2) 1 12 = 106619
      ∧ ((6619 : ℤ) : ℚ) ≠ ((106619 : ℤ) : ℚ) - 200001/2 := by
  have hb := C4_bounds
  have htm : tenure_months (1 : ℚ) = 12 := by
    rw [tenure_months_eq_floor (by norm_num),
      show (1 : ℚ) * 12 = ((12 : ℤ) : ℚ) from by norm_num, Int.floor_intCast]
  refine ⟨?_, ?_, by norm_num⟩
  · rw [totalInterestOf, calc_pos_eq (by norm_num) (by norm_num) (by norm_num),
      Option.map_some', Option.getD_some]
    show pyround (emi (200001/2) 1 12 * (tenure_months (1 : ℚ) : ℚ) - 200001/2) = 6619
    rw [htm, show ((12 : ℤ) : ℚ) = (12 : ℚ) from by norm_num]
    have h1 : ((6618 : ℤ) : ℚ) + 1/2 < emi (200001/2) 1 12 * 12 - 200001/2 := by
      push_cast
      linarith [hb.1]
    have h2 : emi (200001/2) 1 12 * 12 - 200001/2 < ((6618 : ℤ) : ℚ) + 1 := by
      push_cast
      linarith [hb.2]
    rw [pyround_eq_of_gt_half _ 6618 h1 h2]
    decide
  · rw [totalPaymentOf, calc_pos_eq (by norm_num) (by norm_num) (by norm_num),
      Option.map_some', Option.getD_some]
    show pyround (emi (200001/2) 1 12 * (tenure_months (1 : ℚ) : ℚ)) = 106619
    rw [htm, show ((12 : ℤ) : ℚ) = (12 : ℚ) from by norm_num]
    have h1 : ((106619 : ℤ) : ℚ) ≤ emi (200001/2) 1 12 * 12 := by
      push_cast
      linarith [hb.1]
    have h2 : emi (200001/2) 1 12 * 12 < ((106619 : ℤ) : ℚ) + 1/2 := by
      push_cast
      linarith [hb.2]
    exact pyround_eq_of_lt_half _ 106619 h1 h2
